import Mathlib

/-!
Shallow embedding of the derived-metrics pipeline of the expense dashboard
(`src/components/expense-dashboard.tsx`): the filter engine, the aggregator,
the category bucketizer, the trend bucketizer and the submit handler.

Modelling conventions:
* JS numbers are modelled as rationals (`ℚ`); the arithmetic performed by the
  pipeline (sums, divisions, `Math.ceil`, `Math.max`) is exact on the inputs
  the claims quantify over.
* A record's `date` field (an ISO-8601 string in the source) is modelled by
  the instant it denotes: its epoch value in milliseconds (`Int`), which is
  what `new Date(expense.date).getTime()` yields.
* A date-only input string `"YYYY-MM-DD"` (the filter bounds and the form
  date) is modelled by its epoch day number; `new Date("YYYY-MM-DD")` in JS
  denotes the UTC start-of-day instant, i.e. `epochDay * 86400000` ms.
* JS strings that the pipeline inspects character by character (labels,
  notes, the search box) are modelled as `List Char`; strings that are only
  carried around or compared as keys (ids, month keys, the error message)
  are modelled as `String`.
* The JS `Map` (which preserves insertion order) is modelled as an
  association list with an `upsert` operation that updates the first matching
  key in place and otherwise appends.
-/

namespace ExpenseDashboard

/-- The fixed closed category enumeration (`ExpenseCategory` in the source). -/
inductive Category where
  | housing
  | transportation
  | food
  | utilities
  | entertainment
  | health
  | education
  | other
deriving DecidableEq, Repr

/-- `ExpenseFrequency`: `'One-time' | 'Recurring'`. -/
inductive Frequency where
  | oneTime
  | recurring
deriving DecidableEq, Repr

/-- An expense record (`Expense` in the source).  `date` is the epoch-millisecond
instant denoted by the stored ISO string. -/
structure Expense where
  id : String
  label : List Char
  amount : ℚ
  category : Category
  date : Int
  frequency : Frequency
  notes : Option (List Char)
deriving DecidableEq, Repr

/-- The filter criteria (`Filters` in the source).  `category`/`frequency` use
`none` for the `'All'` sentinel; `startDate`/`endDate` use `none` for the empty
string (unset) and otherwise hold the epoch day number of the `"YYYY-MM-DD"`
input value. -/
structure Filters where
  search : List Char
  category : Option Category
  frequency : Option Frequency
  startDate : Option Int
  endDate : Option Int
deriving DecidableEq, Repr

/-- The declared order of the `categories` array in the source. -/
def categories : List Category :=
  [Category.housing, Category.transportation, Category.food, Category.utilities,
   Category.entertainment, Category.health, Category.education, Category.other]

/-- The initial filter state (lines 137-143 of the source): empty search,
category `'All'`, frequency `'All'`, both date bounds empty. -/
def defaultFilters : Filters :=
  { search := [], category := none, frequency := none, startDate := none, endDate := none }

/-- JS `String.prototype.toLowerCase`, on the character-list model. -/
def toLowerChars (s : List Char) : List Char :=
  s.map Char.toLower

/-- JS `String.prototype.trim`: drop leading and trailing whitespace. -/
def trimChars (s : List Char) : List Char :=
  ((s.dropWhile Char.isWhitespace).reverse.dropWhile Char.isWhitespace).reverse

/-- Whether `needle` occurs at the start of `hay`. -/
def leadsWith : List Char → List Char → Bool
  | [], _ => true
  | _ :: _, [] => false
  | a :: as, b :: bs => a == b && leadsWith as bs

/-- JS `String.prototype.includes`: whether `needle` occurs contiguously
anywhere in `hay`. -/
def occursIn (needle hay : List Char) : Bool :=
  match hay with
  | [] => needle.isEmpty
  | _ :: rest => leadsWith needle hay || occursIn needle rest

/-- The UTC start-of-day instant (epoch ms) of an epoch day number; this is the
instant `new Date("YYYY-MM-DD")` denotes for the corresponding date string. -/
def startOfDayMillis (day : Int) : Int :=
  day * 86400000

/-- `matchesSearch` (lines 153-156): the trimmed, lower-cased search term is
empty, or occurs in the lower-cased label, or occurs in the lower-cased notes
(absent notes never match). -/
def matchesSearch (searchTerm : List Char) (e : Expense) : Bool :=
  searchTerm.isEmpty || occursIn searchTerm (toLowerChars e.label) ||
    (match e.notes with
     | some n => occursIn searchTerm (toLowerChars n)
     | none => false)

/-- `matchesCategory` (lines 157-158): `filters.category === 'All'` or exact
equality with the record's category. -/
def matchesCategory (f : Filters) (e : Expense) : Bool :=
  match f.category with
  | none => true
  | some c => e.category == c

/-- `matchesFrequency` (lines 159-160): analogous to category. -/
def matchesFrequency (f : Filters) (e : Expense) : Bool :=
  match f.frequency with
  | none => true
  | some fr => e.frequency == fr

/-- `matchesStart` (line 162): `!filters.startDate` or
`expenseDate >= new Date(filters.startDate)`. -/
def matchesStart (f : Filters) (e : Expense) : Bool :=
  match f.startDate with
  | none => true
  | some d => decide (startOfDayMillis d ≤ e.date)

/-- `matchesEnd` (line 163): `!filters.endDate` or
`expenseDate <= new Date(filters.endDate)`. -/
def matchesEnd (f : Filters) (e : Expense) : Bool :=
  match f.endDate with
  | none => true
  | some d => decide (e.date ≤ startOfDayMillis d)

/-- The filter engine (`filteredExpenses`, lines 150-166): conjunction of the
five independent predicates over each record, by `Array.prototype.filter`. -/
def filterExpenses (expenses : List Expense) (f : Filters) : List Expense :=
  let searchTerm := toLowerChars (trimChars f.search)
  expenses.filter fun e =>
    matchesSearch searchTerm e && matchesCategory f e && matchesFrequency f e &&
      matchesStart f e && matchesEnd f e

/-- The accumulator of the aggregator's `reduce` (lines 172-182): running
total, running recurring total, and the pushed `{amount, date}` pairs. -/
structure Totals where
  total : ℚ
  recurring : ℚ
  byDate : List (ℚ × Int)
deriving DecidableEq, Repr

/-- One step of the aggregator's `reduce` (lines 172-182). -/
def accumulate (acc : Totals) (e : Expense) : Totals :=
  { total := acc.total + e.amount
    recurring := if e.frequency = Frequency.recurring then acc.recurring + e.amount
                 else acc.recurring
    byDate := acc.byDate ++ [(e.amount, e.date)] }

/-- `diffDays` (line 197): `Math.max(1, Math.ceil((last - first) / 86400000))`. -/
def spanDays (firstDate lastDate : Int) : Int :=
  max 1 ⌈(((lastDate - firstDate : Int) : ℚ) / 86400000)⌉

/-- `diffMonths` (line 198): `Math.max(1, Math.ceil(diffDays / 30))`. -/
def spanMonths (firstDate lastDate : Int) : Int :=
  max 1 ⌈((spanDays firstDate lastDate : Int) : ℚ) / 30⌉

/-- The aggregator's output record (line 168 / 200-205). -/
structure Agg where
  total : ℚ
  avgDaily : ℚ
  avgMonthly : ℚ
  recurringTotal : ℚ
deriving DecidableEq, Repr

/-- The aggregator (lines 168-206).  On the empty filtered set it returns all
zeros (line 170).  Otherwise it reduces the records into `Totals`, takes the
earliest and latest pushed dates by the two `reduce` passes of lines 184-196
(the `new Date()` fallback of those lines is unreachable here since `byDate`
is then non-empty; it is modelled by the constant 0), and divides the total by
the day span and the month span. -/
def aggregate (l : List Expense) : Agg :=
  match l with
  | [] => { total := 0, avgDaily := 0, avgMonthly := 0, recurringTotal := 0 }
  | e :: rest =>
    let totals := (e :: rest).foldl accumulate { total := 0, recurring := 0, byDate := [] }
    let firstDate :=
      match totals.byDate with
      | [] => 0
      | p :: _ =>
        totals.byDate.foldl (fun earliest item => if item.2 < earliest then item.2 else earliest) p.2
    let lastDate :=
      match totals.byDate with
      | [] => 0
      | p :: _ =>
        totals.byDate.foldl (fun latest item => if latest < item.2 then item.2 else latest) p.2
    { total := totals.total
      avgDaily := totals.total / ((spanDays firstDate lastDate : Int) : ℚ)
      avgMonthly := totals.total / ((spanMonths firstDate lastDate : Int) : ℚ)
      recurringTotal := totals.recurring }

/-- JS `Map.prototype.set(key, (map.get(key) ?? 0) + v)` on the insertion-order
association-list model of `Map`: update the existing entry in place, or append
a new entry at the end. -/
def upsert {κ : Type} [DecidableEq κ] : List (κ × ℚ) → κ → ℚ → List (κ × ℚ)
  | [], k, v => [(k, v)]
  | (k', v') :: rest, k, v =>
    if k' = k then (k', v' + v) :: rest else (k', v') :: upsert rest k v

/-- JS `map.get(key) ?? 0` on the association-list model of `Map`. -/
def lookupAmount {κ : Type} [DecidableEq κ] : List (κ × ℚ) → κ → ℚ
  | [], _ => 0
  | (k', v') :: rest, k => if k' = k then v' else lookupAmount rest k

/-- The `byCategory` map of the category bucketizer (lines 209-212). -/
def byCategory (l : List Expense) : List (Category × ℚ) :=
  l.foldl (fun m e => upsert m e.category e.amount) []

/-- One output bucket of the category bucketizer (lines 216-221). -/
structure CategoryBucket where
  category : Category
  amount : ℚ
  percentage : ℚ
  width : ℚ
deriving DecidableEq, Repr

/-- The category bucketizer (`categoryBreakdown`, lines 208-223): one bucket
per category of the fixed enumeration, in its declared order.
`largest = Math.max(1, ...values)` is the fold of `max` over the map's values
starting from 1. -/
def categoryBreakdown (l : List Expense) (total : ℚ) : List CategoryBucket :=
  let m := byCategory l
  let largest : ℚ := (m.map Prod.snd).foldl max 1
  categories.map fun c =>
    let amount := lookupAmount m c
    { category := c
      amount := amount
      percentage := if total = 0 then 0 else amount / total * 100
      width := amount / largest * 100 }

/-- `String(n).padStart(2, '0')` for the month number (always in 1..12). -/
def pad2 (n : Int) : String :=
  if n < 10 then "0" ++ toString n else toString n

/-- Calendar (year, month in 1..12) of an epoch day number, the standard
civil-from-days conversion; models `getFullYear()` / `getMonth() + 1` with the
runtime timezone taken to be UTC. -/
def civilFromDays (z : Int) : Int × Int :=
  let zs := z + 719468
  let era := Int.fdiv zs 146097
  let doe := zs - era * 146097
  let yoe := Int.fdiv (doe - Int.fdiv doe 1460 + Int.fdiv doe 36524 - Int.fdiv doe 146096) 365
  let y := yoe + era * 400
  let doy := doe - (365 * yoe + Int.fdiv yoe 4 - Int.fdiv yoe 100)
  let mp := Int.fdiv (5 * doy + 2) 153
  let m := mp + (if mp < 10 then 3 else -9)
  (if m ≤ 2 then y + 1 else y, m)

/-- The zero-padded `"YYYY-MM"` month key of a record timestamp (line 229). -/
def monthKey (t : Int) : String :=
  let ym := civilFromDays (Int.fdiv t 86400000)
  toString ym.1 ++ "-" ++ pad2 ym.2

/-- The human month label (line 236): `toLocaleString` is a locale-dependent
browser API outside the core; it is modelled as the key itself.  No claim
depends on its value. -/
def monthLabel (key : String) : String :=
  key

/-- The `byMonth` map of the trend bucketizer (lines 226-231). -/
def byMonth (l : List Expense) : List (String × ℚ) :=
  l.foldl (fun m e => upsert m (monthKey e.date) e.amount) []

/-- One output point of the trend bucketizer (lines 233-237). -/
structure TrendPoint where
  key : String
  amount : ℚ
  label : String
deriving DecidableEq, Repr

/-- Insertion step of the sort of line 238.  The source sorts with the
comparator `(a, b) => (a.key < b.key ? -1 : 1)`; on the duplicate-free keys
produced by the `byMonth` map any comparison sort with this comparator yields
the unique order it models, realized here by insertion on `a.key < b.key`. -/
def insertTrend (x : TrendPoint) : List TrendPoint → List TrendPoint
  | [] => [x]
  | y :: ys => if x.key < y.key then x :: y :: ys else y :: insertTrend x ys

/-- The sort of line 238 (see `insertTrend`). -/
def sortTrend : List TrendPoint → List TrendPoint
  | [] => []
  | x :: xs => insertTrend x (sortTrend xs)

/-- The trend bucketizer (`trend`, lines 225-240): group by month key, map the
entries to `{key, amount, label}` points, and sort ascending by key. -/
def trend (l : List Expense) : List TrendPoint :=
  sortTrend ((byMonth l).map fun p => { key := p.1, amount := p.2, label := monthLabel p.1 })

/-- The new-expense form draft (lines 552-559) at submission time.  `amount`
holds the result of `Number(form.amount)`: `none` models `NaN`, `some a` a
numeric parse result.  `date` is the epoch day of the `"YYYY-MM-DD"` date
input. -/
structure FormState where
  label : List Char
  amount : Option ℚ
  category : Category
  frequency : Frequency
  date : Int
  notes : List Char
deriving DecidableEq, Repr

/-- `Number(parsedAmount.toFixed(2))` (line 573): round to 2 fractional
digits, half away from zero on the positive amounts that reach it. -/
def round2 (a : ℚ) : ℚ :=
  ((⌊a * 100 + 1 / 2⌋ : Int) : ℚ) / 100

/-- The result of a submission: the resulting store contents and the
validation error, if any. -/
structure SubmitResult where
  expenses : List Expense
  error : Option String
deriving DecidableEq, Repr

/-- `handleSubmit` (lines 562-590) combined with `handleAddExpense`
(lines 242-244): reject with the validation message when the amount is `NaN`
or non-positive, leaving the record list untouched; otherwise construct the
record (blank label falls back to the placeholder, blank notes to absent) and
prepend it. -/
def handleSubmit (prev : List Expense) (form : FormState) (newId : String) : SubmitResult :=
  match form.amount with
  | none => { expenses := prev, error := some "Please enter a valid amount greater than 0." }
  | some a =>
    if a ≤ 0 then
      { expenses := prev, error := some "Please enter a valid amount greater than 0." }
    else
      let newExpense : Expense :=
        { id := newId
          label := if trimChars form.label = [] then "Untitled expense".data
                   else trimChars form.label
          amount := round2 a
          category := form.category
          date := startOfDayMillis form.date
          frequency := form.frequency
          notes := if trimChars form.notes = [] then none else some (trimChars form.notes) }
      { expenses := newExpense :: prev, error := none }

/-- A sample record used to instantiate universally quantified theorems. -/
def sampleExpense : Expense :=
  { id := "sample"
    label := ['R', 'e', 'n', 't']
    amount := 5
    category := Category.housing
    date := 1
    frequency := Frequency.recurring
    notes := none }

/-- The `byDate` component of the aggregator's reduce collects the
`(amount, date)` pairs in input order. -/
theorem foldl_accumulate_byDate (l : List Expense) (acc : Totals) :
    (l.foldl accumulate acc).byDate = acc.byDate ++ l.map (fun e => (e.amount, e.date)) := by
  induction l generalizing acc with
  | nil => simp
  | cons e rest ih => simp [accumulate, ih]

/-- The `total` component of the aggregator's reduce is the running sum of the
amounts. -/
theorem foldl_accumulate_total (l : List Expense) (acc : Totals) :
    (l.foldl accumulate acc).total = acc.total + (l.map Expense.amount).sum := by
  induction l generalizing acc with
  | nil => simp
  | cons e rest ih => simp [accumulate, ih]; ring

/-- The `earliest`-selection fold is a lower bound of its initial value and of
every element of the list, and is one of them. -/
theorem foldl_earliest_spec (l : List Int) (a : Int) :
    (l.foldl (fun earliest d => if d < earliest then d else earliest) a ≤ a ∧
      ∀ d ∈ l, l.foldl (fun earliest d => if d < earliest then d else earliest) a ≤ d) ∧
      l.foldl (fun earliest d => if d < earliest then d else earliest) a ∈ a :: l := by
  induction l generalizing a with
  | nil => simp
  | cons x xs ih =>
    simp only [List.foldl_cons]
    by_cases hx : x < a
    · simp only [if_pos hx]
      obtain ⟨⟨h1, h2⟩, h3⟩ := ih x
      refine ⟨⟨le_trans h1 (le_of_lt hx), ?_⟩, ?_⟩
      · intro d hd
        rcases List.mem_cons.1 hd with rfl | hd
        · exact h1
        · exact h2 d hd
      · rcases List.mem_cons.1 h3 with h | h
        · exact List.mem_cons.2 (Or.inr (List.mem_cons.2 (Or.inl h)))
        · exact List.mem_cons.2 (Or.inr (List.mem_cons.2 (Or.inr h)))
    · simp only [if_neg hx]
      obtain ⟨⟨h1, h2⟩, h3⟩ := ih a
      refine ⟨⟨h1, ?_⟩, ?_⟩
      · intro d hd
        rcases List.mem_cons.1 hd with rfl | hd
        · exact le_trans h1 (not_lt.1 hx)
        · exact h2 d hd
      · rcases List.mem_cons.1 h3 with h | h
        · exact List.mem_cons.2 (Or.inl h)
        · exact List.mem_cons.2 (Or.inr (List.mem_cons.2 (Or.inr h)))

/-- The `latest`-selection fold is an upper bound of its initial value and of
every element of the list, and is one of them. -/
theorem foldl_latest_spec (l : List Int) (a : Int) :
    (a ≤ l.foldl (fun latest d => if latest < d then d else latest) a ∧
      ∀ d ∈ l, d ≤ l.foldl (fun latest d => if latest < d then d else latest) a) ∧
      l.foldl (fun latest d => if latest < d then d else latest) a ∈ a :: l := by
  induction l generalizing a with
  | nil => simp
  | cons x xs ih =>
    simp only [List.foldl_cons]
    by_cases hx : a < x
    · simp only [if_pos hx]
      obtain ⟨⟨h1, h2⟩, h3⟩ := ih x
      refine ⟨⟨le_trans (le_of_lt hx) h1, ?_⟩, ?_⟩
      · intro d hd
        rcases List.mem_cons.1 hd with rfl | hd
        · exact h1
        · exact h2 d hd
      · rcases List.mem_cons.1 h3 with h | h
        · exact List.mem_cons.2 (Or.inr (List.mem_cons.2 (Or.inl h)))
        · exact List.mem_cons.2 (Or.inr (List.mem_cons.2 (Or.inr h)))
    · simp only [if_neg hx]
      obtain ⟨⟨h1, h2⟩, h3⟩ := ih a
      refine ⟨⟨h1, ?_⟩, ?_⟩
      · intro d hd
        rcases List.mem_cons.1 hd with rfl | hd
        · exact le_trans (not_lt.1 hx) h1
        · exact h2 d hd
      · rcases List.mem_cons.1 h3 with h | h
        · exact List.mem_cons.2 (Or.inl h)
        · exact List.mem_cons.2 (Or.inr (List.mem_cons.2 (Or.inr h)))

/-- Computation of the aggregator's `total` field on a non-empty input. -/
theorem aggregate_cons_total (e : Expense) (rest : List Expense) :
    (aggregate (e :: rest)).total = ((e :: rest).map Expense.amount).sum := by
  have ht := foldl_accumulate_total (e :: rest) { total := 0, recurring := 0, byDate := [] }
  simp only [aggregate, ht, zero_add]

/-- Computation of the aggregator's `avgDaily` field on a non-empty input: the
sum of the amounts divided by the day span of the earliest-date and
latest-date folds. -/
theorem aggregate_cons_avgDaily (e : Expense) (rest : List Expense) :
    (aggregate (e :: rest)).avgDaily =
      ((e :: rest).map Expense.amount).sum /
        ((spanDays
          (((e :: rest).map Expense.date).foldl
            (fun earliest d => if d < earliest then d else earliest) e.date)
          (((e :: rest).map Expense.date).foldl
            (fun latest d => if latest < d then d else latest) e.date) : Int) : ℚ) := by
  have hbd : (List.foldl accumulate { total := 0, recurring := 0, byDate := [] }
      (e :: rest)).byDate = (e.amount, e.date) :: rest.map (fun x => (x.amount, x.date)) := by
    simpa using foldl_accumulate_byDate (e :: rest) { total := 0, recurring := 0, byDate := [] }
  have ht := foldl_accumulate_total (e :: rest) { total := 0, recurring := 0, byDate := [] }
  simp only [aggregate]
  rw [hbd, ht]
  simp [List.foldl_map]

/-- Computation of the aggregator's `avgMonthly` field on a non-empty input. -/
theorem aggregate_cons_avgMonthly (e : Expense) (rest : List Expense) :
    (aggregate (e :: rest)).avgMonthly =
      ((e :: rest).map Expense.amount).sum /
        ((spanMonths
          (((e :: rest).map Expense.date).foldl
            (fun earliest d => if d < earliest then d else earliest) e.date)
          (((e :: rest).map Expense.date).foldl
            (fun latest d => if latest < d then d else latest) e.date) : Int) : ℚ) := by
  have hbd : (List.foldl accumulate { total := 0, recurring := 0, byDate := [] }
      (e :: rest)).byDate = (e.amount, e.date) :: rest.map (fun x => (x.amount, x.date)) := by
    simpa using foldl_accumulate_byDate (e :: rest) { total := 0, recurring := 0, byDate := [] }
  have ht := foldl_accumulate_total (e :: rest) { total := 0, recurring := 0, byDate := [] }
  simp only [aggregate]
  rw [hbd, ht]
  simp [List.foldl_map]

/-- C1: on every non-empty filtered set, letting `dmin`/`dmax` be the minimum
and maximum record timestamps, the aggregator computes
`total = sum of amounts`, `avgDaily = total / spanDays dmin dmax` and
`avgMonthly = total / spanMonths dmin dmax`, where `spanDays` and `spanMonths`
are the `max(1, ceil(...))` day-span and month-span formulas. -/
theorem aggregate_formula (l : List Expense) (h : l ≠ []) :
    ∃ dmin dmax : Int,
      dmin ∈ l.map Expense.date ∧ dmax ∈ l.map Expense.date ∧
      (∀ d ∈ l.map Expense.date, dmin ≤ d ∧ d ≤ dmax) ∧
      (aggregate l).total = (l.map Expense.amount).sum ∧
      (aggregate l).avgDaily = (l.map Expense.amount).sum / ((spanDays dmin dmax : Int) : ℚ) ∧
      (aggregate l).avgMonthly = (l.map Expense.amount).sum / ((spanMonths dmin dmax : Int) : ℚ) := by
  obtain ⟨e, rest, rfl⟩ := List.exists_cons_of_ne_nil h
  obtain ⟨⟨hminle, hminall⟩, hminmem⟩ :=
    foldl_earliest_spec ((e :: rest).map Expense.date) e.date
  obtain ⟨⟨hmaxle, hmaxall⟩, hmaxmem⟩ :=
    foldl_latest_spec ((e :: rest).map Expense.date) e.date
  have hedate : e.date ∈ (e :: rest).map Expense.date :=
    List.mem_map_of_mem Expense.date (List.mem_cons_self e rest)
  refine ⟨_, _, ?_, ?_, ?_, aggregate_cons_total e rest,
    aggregate_cons_avgDaily e rest, aggregate_cons_avgMonthly e rest⟩
  · rcases List.mem_cons.1 hminmem with h' | h'
    · rw [h']; exact hedate
    · exact h'
  · rcases List.mem_cons.1 hmaxmem with h' | h'
    · rw [h']; exact hedate
    · exact h'
  · exact fun d hd => ⟨hminall d hd, hmaxall d hd⟩

/-- Witness for C1 at the singleton sample list. -/
theorem aggregate_formula_witness :
    ∃ dmin dmax : Int,
      dmin ∈ [sampleExpense].map Expense.date ∧ dmax ∈ [sampleExpense].map Expense.date ∧
      (∀ d ∈ [sampleExpense].map Expense.date, dmin ≤ d ∧ d ≤ dmax) ∧
      (aggregate [sampleExpense]).total = ([sampleExpense].map Expense.amount).sum ∧
      (aggregate [sampleExpense]).avgDaily =
        ([sampleExpense].map Expense.amount).sum / ((spanDays dmin dmax : Int) : ℚ) ∧
      (aggregate [sampleExpense]).avgMonthly =
        ([sampleExpense].map Expense.amount).sum / ((spanMonths dmin dmax : Int) : ℚ) :=
  aggregate_formula [sampleExpense] (by simp)

/-- C2: on the empty filtered set the aggregator returns exactly `0` for all
four outputs (the early-return branch of line 170; no division is reached). -/
theorem aggregate_empty :
    (aggregate []).total = 0 ∧ (aggregate []).recurringTotal = 0 ∧
      (aggregate []).avgDaily = 0 ∧ (aggregate []).avgMonthly = 0 :=
  ⟨rfl, rfl, rfl, rfl⟩

/-- A form draft with a negative parsed amount (`Number("-5") = -5`), used to
instantiate the rejection theorem. -/
def rejectedForm : FormState :=
  { label := []
    amount := some (-5)
    category := Category.housing
    frequency := Frequency.oneTime
    date := 0
    notes := [] }

/-- C3: with a set end date, the end-bound predicate accepts a record iff its
timestamp is at most the start-of-day instant of the end date; a record
timestamped strictly later (in particular, later within the end day itself) is
excluded. -/
theorem matchesEnd_iff_le_startOfDay (e : Expense) (f : Filters) (d : Int)
    (h : f.endDate = some d) :
    (matchesEnd f e = true ↔ e.date ≤ startOfDayMillis d) ∧
      (startOfDayMillis d < e.date → matchesEnd f e = false) := by
  constructor
  · simp [matchesEnd, h]
  · intro hlt
    simp [matchesEnd, h]
    exact hlt

/-- Witness for C3: the end date is epoch day 0, the sample record is
timestamped 1 ms after that day's start-of-day instant — still within the end
day — and is excluded. -/
theorem matchesEnd_iff_le_startOfDay_witness :
    matchesEnd { defaultFilters with endDate := some 0 } sampleExpense = false :=
  (matchesEnd_iff_le_startOfDay sampleExpense
    { defaultFilters with endDate := some 0 } 0 rfl).2 (by decide)

/-- C4: the filter engine's output is a subsequence of its input, preserving
the relative order of the records it retains. -/
theorem filterExpenses_sublist (expenses : List Expense) (f : Filters) :
    (filterExpenses expenses f).Sublist expenses :=
  List.filter_sublist expenses

/-- C5: with the all-default filters (empty search, category `'All'`,
frequency `'All'`, both date bounds unset) the filter engine returns the whole
input unchanged and in order. -/
theorem filterExpenses_default (expenses : List Expense) :
    filterExpenses expenses defaultFilters = expenses := by
  unfold filterExpenses
  simp only [defaultFilters]
  rw [List.filter_eq_self]
  intro e _
  simp [matchesSearch, matchesCategory, matchesFrequency, matchesStart, matchesEnd,
    trimChars, toLowerChars]

/-- Looking up after an `upsert` adds the inserted value to the slot of its
key and leaves every other slot unchanged. -/
theorem lookupAmount_upsert {κ : Type} [DecidableEq κ] (m : List (κ × ℚ)) (k c : κ) (v : ℚ) :
    lookupAmount (upsert m k v) c = lookupAmount m c + (if c = k then v else 0) := by
  induction m with
  | nil =>
    by_cases h : c = k
    · subst h; simp [upsert, lookupAmount]
    · simp [upsert, lookupAmount, h, Ne.symm h]
  | cons p rest ih =>
    obtain ⟨k', v'⟩ := p
    by_cases hk : k' = k
    · subst hk
      by_cases hc : k' = c
      · subst hc; simp [upsert, lookupAmount]
      · simp [upsert, lookupAmount, hc, Ne.symm hc]
    · by_cases hc : k' = c
      · subst hc
        simp [upsert, lookupAmount, hk]
      · simp [upsert, lookupAmount, hk, hc, ih]

/-- Summing an indicator over the fixed category enumeration picks out the
single matching category. -/
theorem sum_categories_indicator (k : Category) (v : ℚ) :
    (categories.map fun c => if c = k then v else 0).sum = v := by
  cases k <;> simp [categories]

/-- Folding records into a category map adds the sum of their amounts to the
total of the map's slots over the full enumeration. -/
theorem sum_lookup_foldl (l : List Expense) (m : List (Category × ℚ)) :
    (categories.map (lookupAmount (l.foldl (fun acc e => upsert acc e.category e.amount) m))).sum
      = (categories.map (lookupAmount m)).sum + (l.map Expense.amount).sum := by
  induction l generalizing m with
  | nil => simp
  | cons e rest ih =>
    simp only [List.foldl_cons, List.map_cons, List.sum_cons]
    rw [ih]
    have hmap : categories.map (lookupAmount (upsert m e.category e.amount))
        = categories.map (fun c => lookupAmount m c + (if c = e.category then e.amount else 0)) :=
      List.map_congr_left fun c _ => lookupAmount_upsert m e.category c e.amount
    rw [hmap, List.sum_map_add, sum_categories_indicator]
    ring

/-- C7: the sum over all categories of the bucketizer's per-category amounts
equals the aggregator's total on the same filtered set. -/
theorem categoryBreakdown_sum_eq_total (l : List Expense) :
    ((categoryBreakdown l (aggregate l).total).map CategoryBucket.amount).sum
      = (aggregate l).total := by
  have hmap : (categoryBreakdown l (aggregate l).total).map CategoryBucket.amount
      = categories.map (lookupAmount (byCategory l)) := by
    simp only [categoryBreakdown, List.map_map]
    rfl
  rw [hmap]
  cases l with
  | nil => simp [byCategory, aggregate, categories, lookupAmount]
  | cons e rest =>
    rw [aggregate_cons_total]
    have := sum_lookup_foldl (e :: rest) []
    simpa [byCategory, lookupAmount] using this

/-- Records none of which belong to category `c` leave the slot of `c`
untouched. -/
theorem lookup_foldl_absent (l : List Expense) (m : List (Category × ℚ)) (c : Category)
    (h : ∀ e ∈ l, e.category ≠ c) :
    lookupAmount (l.foldl (fun acc e => upsert acc e.category e.amount) m) c
      = lookupAmount m c := by
  induction l generalizing m with
  | nil => rfl
  | cons e rest ih =>
    simp only [List.foldl_cons]
    rw [ih _ fun x hx => h x (List.mem_cons_of_mem e hx)]
    rw [lookupAmount_upsert]
    have : c ≠ e.category := fun hc => h e (List.mem_cons_self e rest) hc.symm
    simp [this]

/-- C6: the bucketizer outputs exactly one bucket per category of the fixed
enumeration, in the enumeration's declared order, and a category with no
matching record gets a zero-amount bucket. -/
theorem categoryBreakdown_categories (l : List Expense) (total : ℚ) :
    ((categoryBreakdown l total).map CategoryBucket.category = categories) ∧
      ∀ b ∈ categoryBreakdown l total, (∀ e ∈ l, e.category ≠ b.category) → b.amount = 0 := by
  constructor
  · simp only [categoryBreakdown, List.map_map]
    exact List.map_id categories
  · intro b hb habsent
    simp only [categoryBreakdown, List.mem_map] at hb
    obtain ⟨c, _, rfl⟩ := hb
    show lookupAmount (byCategory l) c = 0
    have : ∀ e ∈ l, e.category ≠ c := habsent
    rw [byCategory, lookup_foldl_absent l [] c this]
    rfl

/-- Witness for C6: on a one-record Housing list, the Food bucket is present
with amount 0. -/
theorem categoryBreakdown_categories_witness :
    ((categoryBreakdown [sampleExpense] 1).map CategoryBucket.category = categories) ∧
      ({ category := Category.food, amount := 0, percentage := 0, width := 0 } :
        CategoryBucket).amount = 0 :=
  ⟨(categoryBreakdown_categories [sampleExpense] 1).1,
    (categoryBreakdown_categories [sampleExpense] 1).2
      { category := Category.food, amount := 0, percentage := 0, width := 0 }
      (by
        norm_num [categoryBreakdown, byCategory, upsert, lookupAmount, categories,
          sampleExpense]
        decide)
      (by decide)⟩

/-- An element below the initial value stays below a `max`-fold. -/
theorem le_foldl_max (l : List ℚ) (a b : ℚ) (h : a ≤ b) : a ≤ l.foldl max b := by
  induction l generalizing b with
  | nil => exact h
  | cons x xs ih => exact ih _ (le_trans h (le_max_left b x))

/-- Every slot of the map is at most the `max`-fold of its values (for a
non-negative initial value, which also bounds the 0 of absent slots). -/
theorem lookupAmount_le_foldl_max {κ : Type} [DecidableEq κ] (m : List (κ × ℚ)) (c : κ)
    (b : ℚ) (hb : 0 ≤ b) : lookupAmount m c ≤ (m.map Prod.snd).foldl max b := by
  induction m generalizing b with
  | nil => simpa [lookupAmount] using hb
  | cons p rest ih =>
    obtain ⟨k', v'⟩ := p
    simp only [lookupAmount, List.map_cons, List.foldl_cons]
    by_cases h : k' = c
    · rw [if_pos h]
      exact le_foldl_max _ _ _ (le_max_right b v')
    · rw [if_neg h]
      exact ih (max b v') (le_trans hb (le_max_left b v'))

/-- Folding records with non-negative amounts keeps every slot of the category
map non-negative. -/
theorem lookupAmount_foldl_nonneg (l : List Expense) :
    ∀ m : List (Category × ℚ), (∀ c, 0 ≤ lookupAmount m c) → (∀ e ∈ l, 0 ≤ e.amount) →
      ∀ c, 0 ≤ lookupAmount (l.foldl (fun acc e => upsert acc e.category e.amount) m) c := by
  induction l with
  | nil => intro m hm _ c; exact hm c
  | cons e rest ih =>
    intro m hm h c
    simp only [List.foldl_cons]
    refine ih _ ?_ (fun x hx => h x (List.mem_cons_of_mem e hx)) c
    intro c'
    rw [lookupAmount_upsert]
    by_cases hc : c' = e.category
    · rw [if_pos hc]
      exact add_nonneg (hm c') (h e (List.mem_cons_self e rest))
    · rw [if_neg hc, add_zero]
      exact hm c'

/-- C10: when every filtered record's amount is non-negative, every bucket's
width lies between 0 and 100, because the divisor
`largest = max(1, max values)` is at least every bucket's amount and at
least 1. -/
theorem categoryBreakdown_width_bounds (l : List Expense) (total : ℚ)
    (h : ∀ e ∈ l, 0 ≤ e.amount) :
    ∀ b ∈ categoryBreakdown l total, 0 ≤ b.width ∧ b.width ≤ 100 := by
  intro b hb
  simp only [categoryBreakdown, List.mem_map] at hb
  obtain ⟨c, _, rfl⟩ := hb
  have hA0 : 0 ≤ lookupAmount (byCategory l) c :=
    lookupAmount_foldl_nonneg l [] (fun _ => le_rfl) h c
  have hL1 : (1 : ℚ) ≤ ((byCategory l).map Prod.snd).foldl max 1 :=
    le_foldl_max _ 1 1 le_rfl
  have hL0 : (0 : ℚ) < ((byCategory l).map Prod.snd).foldl max 1 :=
    lt_of_lt_of_le one_pos hL1
  have hAL : lookupAmount (byCategory l) c ≤ ((byCategory l).map Prod.snd).foldl max 1 :=
    lookupAmount_le_foldl_max (byCategory l) c 1 (by norm_num)
  refine ⟨mul_nonneg (div_nonneg hA0 (le_of_lt hL0)) (by norm_num), ?_⟩
  have hdiv : lookupAmount (byCategory l) c / ((byCategory l).map Prod.snd).foldl max 1 ≤ 1 :=
    (div_le_one hL0).2 hAL
  exact le_trans (mul_le_mul_of_nonneg_right hdiv (by norm_num))
    (le_of_eq (one_mul 100))

/-- Witness for C10 on the singleton sample list. -/
theorem categoryBreakdown_width_bounds_witness :
    (∀ e ∈ [sampleExpense], 0 ≤ e.amount) ∧
      ∀ b ∈ categoryBreakdown [sampleExpense] 5, 0 ≤ b.width ∧ b.width ≤ 100 :=
  ⟨by decide, categoryBreakdown_width_bounds [sampleExpense] 5 (by decide)⟩

/-- Membership in an insertion step. -/
theorem mem_insertTrend (x z : TrendPoint) (l : List TrendPoint) :
    z ∈ insertTrend x l ↔ z = x ∨ z ∈ l := by
  induction l with
  | nil => simp [insertTrend]
  | cons y ys ih =>
    by_cases h : x.key < y.key
    · simp [insertTrend, h]
    · simp only [insertTrend, if_neg h, List.mem_cons, ih]
      tauto

/-- Insertion preserves the weak key-sortedness invariant. -/
theorem insertTrend_pairwise (x : TrendPoint) (l : List TrendPoint)
    (h : l.Pairwise fun a b => ¬ b.key < a.key) :
    (insertTrend x l).Pairwise fun a b => ¬ b.key < a.key := by
  induction l with
  | nil => simp [insertTrend]
  | cons y ys ih =>
    rw [List.pairwise_cons] at h
    obtain ⟨hhead, htail⟩ := h
    by_cases hk : x.key < y.key
    · rw [insertTrend, if_pos hk]
      refine List.Pairwise.cons ?_ (List.Pairwise.cons hhead htail)
      intro z hz
      rcases List.mem_cons.1 hz with rfl | hz
      · exact lt_asymm hk
      · exact fun hlt => lt_asymm (lt_of_lt_of_le hk (not_lt.1 (hhead z hz))) hlt
    · rw [insertTrend, if_neg hk]
      refine List.Pairwise.cons ?_ (ih htail)
      intro z hz
      rcases (mem_insertTrend x z ys).1 hz with rfl | hz
      · exact hk
      · exact hhead z hz

/-- Insertion permutes a cons. -/
theorem insertTrend_perm (x : TrendPoint) (l : List TrendPoint) :
    List.Perm (insertTrend x l) (x :: l) := by
  induction l with
  | nil => exact List.Perm.refl _
  | cons y ys ih =>
    by_cases h : x.key < y.key
    · rw [insertTrend, if_pos h]
    · rw [insertTrend, if_neg h]
      exact (ih.cons y).trans (List.Perm.swap x y ys)

/-- The sort of the trend bucketizer permutes its input. -/
theorem sortTrend_perm (l : List TrendPoint) : List.Perm (sortTrend l) l := by
  induction l with
  | nil => exact List.Perm.refl _
  | cons x xs ih => exact (insertTrend_perm x (sortTrend xs)).trans (ih.cons x)

/-- The sort of the trend bucketizer establishes weak key-sortedness. -/
theorem sortTrend_pairwise (l : List TrendPoint) :
    (sortTrend l).Pairwise fun a b => ¬ b.key < a.key := by
  induction l with
  | nil => exact List.Pairwise.nil
  | cons x xs ih => exact insertTrend_pairwise x _ ih

/-- Key membership after an `upsert`. -/
theorem mem_keys_upsert {κ : Type} [DecidableEq κ] (m : List (κ × ℚ)) (k a : κ) (v : ℚ) :
    a ∈ (upsert m k v).map Prod.fst ↔ a ∈ m.map Prod.fst ∨ a = k := by
  induction m with
  | nil => simp [upsert]
  | cons p rest ih =>
    obtain ⟨k', v'⟩ := p
    by_cases h : k' = k
    · subst h
      simp [upsert]
      tauto
    · simp [upsert, h, ih]
      tauto

/-- `upsert` preserves duplicate-freeness of the keys. -/
theorem keys_nodup_upsert {κ : Type} [DecidableEq κ] (m : List (κ × ℚ)) (k : κ) (v : ℚ)
    (h : (m.map Prod.fst).Nodup) : ((upsert m k v).map Prod.fst).Nodup := by
  induction m with
  | nil => simp [upsert]
  | cons p rest ih =>
    obtain ⟨k', v'⟩ := p
    rw [List.map_cons, List.nodup_cons] at h
    obtain ⟨hk', hrest⟩ := h
    by_cases hkk : k' = k
    · subst hkk
      simp [upsert, List.nodup_cons, hk', hrest]
    · simp only [upsert, if_neg hkk, List.map_cons, List.nodup_cons]
      refine ⟨?_, ih hrest⟩
      intro hmem
      rcases (mem_keys_upsert rest k k' v).1 hmem with h' | h'
      · exact hk' h'
      · exact hkk h'

/-- Folding records into the month map keeps its keys duplicate-free. -/
theorem keys_nodup_foldl_byMonth (l : List Expense) :
    ∀ m : List (String × ℚ), (m.map Prod.fst).Nodup →
      ((l.foldl (fun acc e => upsert acc (monthKey e.date) e.amount) m).map Prod.fst).Nodup := by
  induction l with
  | nil => exact fun m hm => hm
  | cons e rest ih => exact fun m hm => ih _ (keys_nodup_upsert m _ _ hm)

/-- The keys of the month map are duplicate-free. -/
theorem byMonth_keys_nodup (l : List Expense) : ((byMonth l).map Prod.fst).Nodup :=
  keys_nodup_foldl_byMonth l [] (by simp)

/-- C8: the trend bucketizer's output is strictly ascending by month key with
no duplicate keys, and the empty filtered set yields the empty sequence. -/
theorem trend_sorted (l : List Expense) :
    ((trend l).Pairwise fun a b => a.key < b.key) ∧ trend [] = [] := by
  refine ⟨?_, rfl⟩
  have hperm : List.Perm (trend l)
      ((byMonth l).map fun p => ⟨p.1, p.2, monthLabel p.1⟩) :=
    sortTrend_perm _
  have hkeys : ((trend l).map TrendPoint.key).Nodup := by
    have h1 : (((byMonth l).map fun p => (⟨p.1, p.2, monthLabel p.1⟩ : TrendPoint)).map
        TrendPoint.key) = (byMonth l).map Prod.fst := by
      rw [List.map_map]
      rfl
    have h2 := byMonth_keys_nodup l
    rw [← h1] at h2
    exact (hperm.map TrendPoint.key).nodup_iff.mpr h2
  have hne : (trend l).Pairwise fun a b => a.key ≠ b.key := List.pairwise_map.1 hkeys
  have hle : (trend l).Pairwise fun a b => ¬ b.key < a.key := sortTrend_pairwise _
  exact (hle.and hne).imp fun hab => lt_of_le_of_ne (not_lt.1 hab.1) hab.2

/-- C9: a submission whose amount fails to parse (`NaN`) or parses to a
non-positive value is rejected with the human-readable validation message and
leaves the record list unchanged; no record is constructed. -/
theorem handleSubmit_rejects (prev : List Expense) (form : FormState) (newId : String)
    (h : ∀ a : ℚ, form.amount = some a → a ≤ 0) :
    handleSubmit prev form newId =
      { expenses := prev, error := some "Please enter a valid amount greater than 0." } := by
  cases hf : form.amount with
  | none => simp [handleSubmit, hf]
  | some a => simp [handleSubmit, hf, h a hf]

/-- Witness for C9: the end-to-end scenario of adding an expense with amount
`"-5"`: rejected, store unchanged, validation error returned. -/
theorem handleSubmit_rejects_witness :
    handleSubmit [] rejectedForm "id-1" =
      { expenses := [], error := some "Please enter a valid amount greater than 0." } :=
  handleSubmit_rejects [] rejectedForm "id-1" fun a ha => by
    injection ha with h'
    rw [← h']
    norm_num

end ExpenseDashboard
